import Mathlib

/-!
Shallow embedding of the load-balancer core.

This file embeds the target-selection and forwarding engine of the
repository (files `submissions/504/target_group.py` and
`submissions/504/load_balancer.py`) into Lean 4, and proves the spec's
claims about it.

Modelling conventions:
* Python strings are modelled as `List Char` for the parsing primitives
  (so that every recursion is structural and kernel-reducible), with
  `String` used for the stored data fields.
* `socket`-based DNS resolution (`TargetGroup._resolve_dns`) is I/O; its
  outcome for one hostname is an oracle value. The function catches only
  `socket.error` and `socket.gaierror`, but `socket.getaddrinfo` can raise
  `UnicodeError` (from the IDNA codec, for an empty or over-63-character
  hostname label), which escapes it. The faithful model is therefore
  `dns : String → Except String (List String)`: `.ok` carries the
  (order-preserving, de-duplicated) address list — empty for the two
  caught failure classes — and `.error` an uncaught exception, consumed by
  `parseEntryE`/`parseTargetsE`. The total oracle
  `resolve : String → List String` used by `parseEntry`/`parseTargets` is
  the projection of the no-uncaught-exception case (`parseTargetsE_ok`
  proves the two agree there), which is the situation every hypothesis of
  the theorems over the total model instantiates.
* Python `dict` is modelled as an insertion-ordered association list
  (`List (key × value)`): lookup finds the unique entry, assignment to an
  existing key updates it in place, assignment to a new key appends.
* Python `int(s)` is modelled by `pyInt` (Unicode digits and Unicode
  whitespace are restricted to ASCII, which covers every port string the
  claims mention); failure (`ValueError`) is `none`.
* The outbound HTTP call made by `requests` is external I/O; its outcome is
  a parameter of type `Except PyExc BackendResp`, where `PyExc` records the
  exception-class facts the `except` clauses test for.
-/

namespace LB504

/-- ASCII whitespace, as stripped by Python's `str.strip()` (restricted to
ASCII). -/
def isPySpace (c : Char) : Bool :=
  c = ' ' || c = '\t' || c = '\n' || c = '\x0d' || c = '\x0b' || c = '\x0c'

/-- Python `s.strip()`: drop whitespace from both ends. -/
def pyStrip (l : List Char) : List Char :=
  ((l.dropWhile isPySpace).reverse.dropWhile isPySpace).reverse

/-- Python `s.split(sep)` for a single-character separator: splits on every
occurrence; the empty string yields `[""]`. -/
def pySplit (sep : Char) : List Char → List (List Char)
  | [] => [[]]
  | c :: cs =>
    match pySplit sep cs with
    | [] => [[]]
    | w :: ws => if c = sep then [] :: w :: ws else (c :: w) :: ws

/-- Split a list at the FIRST occurrence of `d`: `some (before, after)`
(neither side contains that occurrence), or `none` when `d` is absent.
Embeds Python's `d in s` test together with `s.split(d, 1)`. -/
def breakOnFirst (d : Char) : List Char → Option (List Char × List Char)
  | [] => none
  | c :: cs =>
    if c = d then some ([], cs)
    else (breakOnFirst d cs).map (fun p => (c :: p.1, p.2))

/-- Split a list at the LAST occurrence of `d`: `some (before, after)`, or
`none` when `d` is absent. Embeds Python's `s.rsplit(d, 1)` (guarded by the
`d in s` test). -/
def breakOnLast (d : Char) (l : List Char) : Option (List Char × List Char) :=
  (breakOnFirst d l.reverse).map (fun p => (p.2.reverse, p.1.reverse))

/-- Digit run of a Python integer literal after the first digit: ASCII
digits, with single underscores allowed between digits. -/
def pyDigitsAux (acc : Nat) : List Char → Option Nat
  | [] => some acc
  | '_' :: c :: cs =>
    if c.isDigit then pyDigitsAux (acc * 10 + (c.toNat - 48)) cs else none
  | ['_'] => none
  | c :: cs =>
    if c.isDigit then pyDigitsAux (acc * 10 + (c.toNat - 48)) cs else none

/-- A nonempty ASCII digit run (underscores allowed between digits), as
accepted by Python `int` after sign processing. -/
def pyDigits : List Char → Option Nat
  | [] => none
  | c :: cs => if c.isDigit then pyDigitsAux (c.toNat - 48) cs else none

/-- Python `int(s)` on a string (ASCII restriction): strip whitespace,
optional sign, nonempty digit run; `none` models `ValueError`. -/
def pyInt (l : List Char) : Option Int :=
  match pyStrip l with
  | '+' :: rest => (pyDigits rest).map Int.ofNat
  | '-' :: rest => (pyDigits rest).map (fun n => -(n : Int))
  | rest => (pyDigits rest).map Int.ofNat

/-- Modelled from the spec: the `Target` class lives in the module `target`,
which is not among the sources; §3 of the spec gives its fields (resolved
address, port, base URI, optional original hostname), matching the
constructor call `Target(ip, port, base_uri, hostname=hostname)` and the
attribute reads `target.ip`, `target.port`, `target.hostname` in the
sources. The port is an unbounded Python integer. -/
structure Target where
  ip : String
  port : Int
  base_uri : String
  hostname : Option String
  deriving DecidableEq, Repr

/-- One iteration of the `for spec in target_specs` loop body of
`TargetGroup._parse_targets` (lines 47–79): skip an empty entry, split
address from base URI at the first `/`, split host from port at the last
`:` (a non-numeric port drops the entry), resolve the host, and emit one
`Target` per resolved address. The total `resolve` oracle covers the runs
in which `_resolve_dns` raises no uncaught exception; `parseEntryE` below
is the same loop body under the fallible resolution model. -/
def parseEntry (resolve : String → List String) (spec : List Char) :
    List Target :=
  if spec = [] then []
  else
    let (address_part, base_uri) :=
      match breakOnFirst '/' spec with
      | some (a, rest) => (a, if rest = [] then ['/'] else '/' :: rest)
      | none => (spec, ['/'])
    match breakOnLast ':' address_part with
    | some (host, port_str) =>
      match pyInt port_str with
      | none => []
      | some port =>
        (resolve (String.mk host)).map
          (fun ip => ⟨ip, port, String.mk base_uri, some (String.mk host)⟩)
    | none =>
      (resolve (String.mk address_part)).map
        (fun ip => ⟨ip, 80, String.mk base_uri, some (String.mk address_part)⟩)

/-- The body of `TargetGroup._parse_targets` after the comma split: each
stripped entry contributes its `parseEntry` targets, in order. -/
def parseEntries (resolve : String → List String) (specs : List (List Char)) :
    List Target :=
  specs.flatMap (parseEntry resolve)

/-- Embeds `TargetGroup._parse_targets` (lines 28–81): empty input gives no
targets; otherwise split on commas, strip each entry, and parse each. -/
def parseTargets (resolve : String → List String) (targets_str : String) :
    List Target :=
  if targets_str.data = [] then []
  else parseEntries resolve ((pySplit ',' targets_str.data).map pyStrip)

/-- The loop body of `_parse_targets` under the fallible resolution model:
identical to `parseEntry`, except that resolution returns
`Except String (List String)` — an `.error` is an exception
(`UnicodeError` from `socket.getaddrinfo`) that neither `except` clause of
`_resolve_dns` (lines 95–113) catches, so it propagates. A non-numeric
port still skips the entry before any resolution is attempted, exactly as
the `continue` on line 68 runs before the `_resolve_dns` call on
line 74. -/
def parseEntryE (dns : String → Except String (List String))
    (spec : List Char) : Except String (List Target) :=
  if spec = [] then .ok []
  else
    let (address_part, base_uri) :=
      match breakOnFirst '/' spec with
      | some (a, rest) => (a, if rest = [] then ['/'] else '/' :: rest)
      | none => (spec, ['/'])
    match breakOnLast ':' address_part with
    | some (host, port_str) =>
      match pyInt port_str with
      | none => .ok []
      | some port =>
        (dns (String.mk host)).map (fun ips =>
          ips.map
            (fun ip => ⟨ip, port, String.mk base_uri, some (String.mk host)⟩))
    | none =>
      (dns (String.mk address_part)).map (fun ips =>
        ips.map
          (fun ip =>
            ⟨ip, 80, String.mk base_uri, some (String.mk address_part)⟩))

/-- The entry loop of `_parse_targets` under the fallible resolution
model: entries are processed left to right and an exception raised while
processing one entry aborts the whole loop — the targets already
collected, and every later sibling, are lost with it, because the
exception propagates out of `TargetGroup.__init__`. -/
def parseEntriesE (dns : String → Except String (List String)) :
    List (List Char) → Except String (List Target)
  | [] => .ok []
  | e :: es =>
    match parseEntryE dns e with
    | .error msg => .error msg
    | .ok ts =>
      match parseEntriesE dns es with
      | .error msg => .error msg
      | .ok rest => .ok (ts ++ rest)

/-- `TargetGroup._parse_targets` under the fallible resolution model:
either the list a non-raising run returns, or the exception that aborts
construction. -/
def parseTargetsE (dns : String → Except String (List String))
    (targets_str : String) : Except String (List Target) :=
  if targets_str.data = [] then .ok []
  else parseEntriesE dns ((pySplit ',' targets_str.data).map pyStrip)

/-- The state of a `TargetGroup` object after `__init__` (lines 13–26):
`weights` stores the provided dict or `{}`, `_weights_provided` records
whether the argument was given, and `targets` is the parse result. -/
structure TargetGroup where
  name : String
  weights : List (String × Int)
  weightsProvided : Bool
  targets : List Target
  deriving Repr

/-- Embeds `TargetGroup.__init__`: `weights` is an optional argument; `None`
(absent) is recorded distinctly from an explicitly empty dict. -/
def mkTargetGroup (resolve : String → List String) (name : String)
    (targets_str : String) (weights : Option (List (String × Int))) :
    TargetGroup :=
  { name := name
    weights := weights.getD []
    weightsProvided := weights.isSome
    targets := parseTargets resolve targets_str }

/-- Embeds `TargetGroup.get_targets` (lines 117–119). -/
def TargetGroup.get_targets (g : TargetGroup) : List Target :=
  g.targets

/-- Python dict lookup on an insertion-ordered association list: the value
of the first (and, as built, only) entry with the given key. -/
def pyLookup {b : Type} (k : String) : List (String × b) → Option b
  | [] => none
  | p :: rest => if p.1 = k then some p.2 else pyLookup k rest

/-- Embeds `TargetGroup.get_weight` (lines 121–131): `self.weights.get(hostname, 1)`. -/
def TargetGroup.get_weight (g : TargetGroup) (hostname : String) : Int :=
  (pyLookup hostname g.weights).getD 1

/-- The grouping key `target.hostname or target.ip` (line 149): Python `or`
falls through on falsy values, so both a missing hostname and an empty
hostname string fall back to the IP. -/
def targetKey (t : Target) : String :=
  match t.hostname with
  | some h => if h.data = [] then t.ip else h
  | none => t.ip

/-- In-place update of a Python dict entry holding a list, as done by
`hostname_targets[hostname].append(target)`; the caller guarantees the key
is present. -/
def appendAt (d : List (String × List Target)) (k : String) (t : Target) :
    List (String × List Target) :=
  d.map (fun p => if p.1 = k then (p.1, p.2 ++ [t]) else p)

/-- One iteration of the grouping loop of `get_weighted_target_list`
(lines 147–152): insert an empty list for a never-seen key (appending the
key in insertion order), then append the target to its key's list. -/
def groupStep (d : List (String × List Target)) (t : Target) :
    List (String × List Target) :=
  let k := targetKey t
  if (pyLookup k d).isSome then appendAt d k t
  else appendAt (d ++ [(k, [])]) k t

/-- The `hostname_targets` dict built by `get_weighted_target_list`
(lines 147–152). -/
def pyGroupBy (l : List Target) : List (String × List Target) :=
  l.foldl groupStep []

/-- First-encounter-ordered deduplication of a key sequence, relative to a
set of already-seen keys: the insertion order of the keys of the grouping
dict. -/
def dedupKeys (seen : List String) : List String → List String
  | [] => []
  | k :: ks =>
    if k ∈ seen then dedupKeys seen ks else k :: dedupKeys (k :: seen) ks

/-- Embeds `TargetGroup.get_weighted_target_list` (lines 133–161): empty when
weights were never provided; otherwise each hostname group's targets are
appended `weight` times, in dict insertion order (Python `range(w)` of a
non-positive `w` is empty, hence `Int.toNat`). -/
def TargetGroup.get_weighted_target_list (g : TargetGroup) : List Target :=
  if !g.weightsProvided then []
  else
    (pyGroupBy g.targets).flatMap
      (fun p => (List.replicate (g.get_weight p.1).toNat p.2).flatten)

/-! Load balancer: selection. -/

/-- The mutable `round_robin_counters` dict of a `LoadBalancer` object:
group name ↦ next index. -/
abbrev LBState := List (String × Nat)

/-- Python dict assignment `d[k] = v`: update in place when the key exists,
otherwise append. -/
def dictSet (d : List (String × Nat)) (k : String) (v : Nat) :
    List (String × Nat) :=
  if (pyLookup k d).isSome then d.map (fun p => if p.1 = k then (p.1, v) else p)
  else d ++ [(k, v)]

/-- Embeds `LoadBalancer._round_robin` (lines 66–92): initialize the group's
counter to 0 when absent, select `targets[index % len(targets)]`, store
`(index + 1) % len(targets)`. Indexing a list is modelled by `List.get?`
(`none` models the `IndexError` that an empty list would raise; the only
call site guarantees non-emptiness). -/
def roundRobin (g : TargetGroup) (targets : List Target) (st : LBState) :
    Option Target × LBState :=
  let st1 : List (String × Nat) :=
    if (pyLookup g.name st).isSome then st else st ++ [(g.name, 0)]
  let index := (pyLookup g.name st1).getD 0
  let target := targets.get? (index % targets.length)
  (target, dictSet st1 g.name ((index + 1) % targets.length))

/-- Embeds `LoadBalancer.select_target` (lines 33–64): empty candidate list gives
`None`; `ROUND_ROBIN` and any unrecognized algorithm dispatch to
`_round_robin`; `WEIGHTED`, `STICKY` and `LRT` are unimplemented and
return the first candidate. The configured algorithm
(`config.get_load_balancing_algorithm()`) is the parameter `alg`. -/
def selectTarget (alg : String) (g : TargetGroup) (st : LBState) :
    Option Target × LBState :=
  let targets := g.get_targets
  if targets = [] then (none, st)
  else if alg = "ROUND_ROBIN" then roundRobin g targets st
  else if alg = "WEIGHTED" then (targets.head?, st)
  else if alg = "STICKY" then (targets.head?, st)
  else if alg = "LRT" then (targets.head?, st)
  else roundRobin g targets st

/-- Runs `n` consecutive `select_target` calls for the same group under a fixed
configured algorithm, threading the counter state; returns the list of
selections in call order and the final state. -/
def runSelect (alg : String) (g : TargetGroup) (st : LBState) :
    Nat → List (Option Target) × LBState
  | 0 => ([], st)
  | n + 1 =>
    let (t, st1) := selectTarget alg g st
    let (ts, st2) := runSelect alg g st1 n
    (t :: ts, st2)

/-! Load balancer: forwarding. -/

/-- Embeds `HOP_BY_HOP_HEADERS` (line 15). -/
def HOP_BY_HOP_HEADERS : List String :=
  ["connection", "keep-alive", "transfer-encoding"]

/-- Python `s.lower()` on a header name, character by character (header
names are ASCII, so the ASCII case mapping of `Char.toLower` coincides
with Python's Unicode one). -/
def pyLower (s : String) : String :=
  String.mk (s.data.map Char.toLower)

/-- Python dict assignment `d[k] = v` for string values. -/
def dictSetStr (d : List (String × String)) (k v : String) :
    List (String × String) :=
  if (pyLookup k d).isSome then d.map (fun p => if p.1 = k then (p.1, v) else p)
  else d ++ [(k, v)]

/-- The outbound-header dict comprehension of `forward_request`
(lines 139–142): `{key: value for key, value in request.headers if
key.lower() not in HOP_BY_HOP_HEADERS}`, with Python dict semantics
(first-insertion position, last assignment wins). -/
def outboundHeaders (headers : List (String × String)) :
    List (String × String) :=
  headers.foldl
    (fun d kv =>
      if pyLower kv.1 ∈ HOP_BY_HOP_HEADERS then d else dictSetStr d kv.1 kv.2)
    []

/-- The facts about a raised exception that the `except` clauses of
`forward_request` test: membership in `requests.exceptions.Timeout`,
membership in `requests.exceptions.ConnectionError` (a class may be in
both, e.g. `ConnectTimeout`; the `Timeout` clause is checked first), and
`str(e)`. Every exception reaching the clauses is a Python `Exception`,
so the final clause always matches. -/
structure PyExc where
  isTimeout : Bool
  isConnectionError : Bool
  detail : String
  deriving DecidableEq, Repr

/-- The backend's reply on a successful forward: status, headers, body. -/
structure BackendResp where
  status : Int
  headers : List (String × String)
  content : String
  deriving DecidableEq, Repr

/-- The value `forward_request` returns: either a pass-through of the
backend response (the `Response(...)` construction of lines 166–170), or
the external error responder's object `handle_error(code, message)`
(module `error_handler`, external per the spec's §1). -/
inductive Response where
  | ok (status : Int) (headers : List (String × String)) (content : String)
  | err (status : Int) (msg : String)
  deriving DecidableEq, Repr

/-- The `try/except` dispatch of `forward_request` (lines 133–179) as a
function of the outbound call's outcome: a successful outcome is passed
through; a raised exception is matched against the `except` clauses in
source order (`Timeout` → 504, `ConnectionError` → 502, any other
`Exception` → 502 with the detail interpolated). -/
def forwardResult (outcome : Except PyExc BackendResp) : Response :=
  match outcome with
  | .ok r => .ok r.status r.headers r.content
  | .error e =>
    if e.isTimeout then .err 504 "Request timeout"
    else if e.isConnectionError then .err 502 "Connection error"
    else .err 502 ("Error forwarding request: " ++ e.detail)

/-- A concrete DNS oracle used to instantiate the theorems on closed
inputs: two single-address hostnames and one two-address hostname. -/
def resolveDemo : String → List String := fun h =>
  if h = "a.com" then ["1.1.1.1"]
  else if h = "b.com" then ["2.2.2.2"]
  else if h = "two.com" then ["3.3.3.3", "4.4.4.4"]
  else []

/-- A concrete fallible DNS oracle: a.com resolves normally, while the
hostname a..com has an empty label, for which CPython's
`socket.getaddrinfo` raises `UnicodeError` out of the IDNA codec — an
exception `_resolve_dns` does not catch (its clauses name only
`socket.error` and `socket.gaierror`). Every other hostname resolves to
nothing, standing for the caught-failure paths. -/
def dnsUnicodeDemo : String → Except String (List String) := fun h =>
  if h = "a.com" then .ok ["1.1.1.1"]
  else if h = "a..com" then .error "UnicodeError: empty label"
  else .ok []

/-- The address part of an entry (what precedes the first slash, or the
whole entry), as computed inside the parse loop. -/
def entryAddressPart (spec : List Char) : List Char :=
  match breakOnFirst '/' spec with
  | some (a, _) => a
  | none => spec

/-- The hostname of an entry: what precedes the last colon of its address
part, or the whole address part when no colon is present. -/
def entryHost (spec : List Char) : List Char :=
  match breakOnLast ':' (entryAddressPart spec) with
  | some (host, _) => host
  | none => entryAddressPart spec

/-- The port segment of an entry: what follows the last colon of its
address part, when a colon is present. -/
def entryPortSeg (spec : List Char) : Option (List Char) :=
  (breakOnLast ':' (entryAddressPart spec)).map (fun p => p.2)

/-- The base URI of an entry: a slash followed by what comes after the
first slash, defaulting to a bare slash when that part is empty or the
entry has no slash. -/
def entryBaseUri (spec : List Char) : List Char :=
  match breakOnFirst '/' spec with
  | some (_, rest) => if rest = [] then ['/'] else '/' :: rest
  | none => ['/']

/-! Theorems. -/

/-- Helper: on a non-empty candidate list, round-robin selection always
returns some member of the list. -/
theorem roundRobin_mem (g : TargetGroup) (l : List Target) (st : LBState)
    (hne : l ≠ []) : ∃ t ∈ l, (roundRobin g l st).1 = some t := by
  have hlen : 0 < l.length := List.length_pos.mpr hne
  have h1 : (roundRobin g l st).1 =
      l.get? (((pyLookup g.name (if (pyLookup g.name st).isSome then st
          else st ++ [(g.name, 0)])).getD 0) % l.length) := rfl
  have hlt : ((pyLookup g.name (if (pyLookup g.name st).isSome then st
      else st ++ [(g.name, 0)])).getD 0) % l.length < l.length :=
    Nat.mod_lt _ hlen
  exact ⟨l.get ⟨_, hlt⟩, List.get_mem l _ hlt, h1.trans (List.get?_eq_get hlt)⟩

/-- C2: for every target and request, forward_request never propagates an
exception to its caller: on upstream timeout it returns the error
responder's response with status 504 and a timeout message; on upstream
connection failure it returns status 502 with a connection-error message;
on any other failure during forwarding it returns status 502 with a
message that includes the failure detail — and every outcome yields either
the backend's response or such an error response. -/
theorem forward_request_error_mapping (o : Except PyExc BackendResp) :
    (∀ e, o = .error e →
      (e.isTimeout = true → forwardResult o = .err 504 "Request timeout") ∧
      (e.isTimeout = false → e.isConnectionError = true →
        forwardResult o = .err 502 "Connection error") ∧
      (e.isTimeout = false → e.isConnectionError = false →
        forwardResult o = .err 502 ("Error forwarding request: " ++ e.detail))) ∧
    ((∃ r, o = .ok r ∧ forwardResult o = .ok r.status r.headers r.content) ∨
      (∃ m, forwardResult o = .err 504 m) ∨
      (∃ m, forwardResult o = .err 502 m)) := by
  constructor
  · rintro e rfl
    refine ⟨fun ht => by simp [forwardResult, ht],
      fun ht hc => by simp [forwardResult, ht, hc],
      fun ht hc => by simp [forwardResult, ht, hc]⟩
  · cases o with
    | ok r => exact Or.inl ⟨r, rfl, rfl⟩
    | error e =>
      by_cases ht : e.isTimeout = true
      · refine Or.inr (Or.inl ⟨"Request timeout", ?_⟩)
        simp [forwardResult, ht]
      · by_cases hc : e.isConnectionError = true
        · refine Or.inr (Or.inr ⟨"Connection error", ?_⟩)
          simp [forwardResult, ht, hc]
        · refine Or.inr (Or.inr ⟨"Error forwarding request: " ++ e.detail, ?_⟩)
          simp [forwardResult, ht, hc]

/-- Witness for C2 at concrete outcomes. -/
theorem forward_request_error_mapping_witness :
    forwardResult (.error ⟨true, false, "boom"⟩) = .err 504 "Request timeout" ∧
    forwardResult (.error ⟨false, true, "boom"⟩) = .err 502 "Connection error" ∧
    forwardResult (.error ⟨false, false, "boom"⟩) =
      .err 502 ("Error forwarding request: " ++ "boom") :=
  ⟨((forward_request_error_mapping _).1 _ rfl).1 rfl,
   ((forward_request_error_mapping _).1 _ rfl).2.1 rfl rfl,
   ((forward_request_error_mapping _).1 _ rfl).2.2 rfl rfl⟩

/-- C7: a TargetGroup constructed without a weights argument has an empty
weighted target list, records the disabled weighted mode as an explicit
flag, and still reports weight 1 for every hostname. -/
theorem weighted_list_empty_without_weights (resolve : String → List String)
    (name s : String) :
    (mkTargetGroup resolve name s none).get_weighted_target_list = [] ∧
    (mkTargetGroup resolve name s none).weightsProvided = false ∧
    ∀ h, (mkTargetGroup resolve name s none).get_weight h = 1 :=
  ⟨rfl, rfl, fun _ => rfl⟩

/-- C6: parsing "a.com:8080/svc,b.com/" with each hostname resolving to a
single address yields exactly two Targets: port 8080 and base URI "/svc"
for a.com, default port 80 and base URI "/" for b.com. -/
theorem parse_two_entry_example (resolve : String → List String)
    (ipa ipb : String) (ha : resolve "a.com" = [ipa])
    (hb : resolve "b.com" = [ipb]) :
    parseTargets resolve "a.com:8080/svc,b.com/" =
      [⟨ipa, 8080, "/svc", some "a.com"⟩, ⟨ipb, 80, "/", some "b.com"⟩] := by
  have h : parseTargets resolve "a.com:8080/svc,b.com/" =
      (resolve "a.com").map (fun ip => ⟨ip, 8080, "/svc", some "a.com"⟩) ++
        ((resolve "b.com").map (fun ip => ⟨ip, 80, "/", some "b.com"⟩) ++ []) :=
    rfl
  rw [h, ha, hb]
  rfl

/-- Witness for C6 at a concrete oracle. -/
theorem parse_two_entry_example_witness :
    parseTargets resolveDemo "a.com:8080/svc,b.com/" =
      [⟨"1.1.1.1", 8080, "/svc", some "a.com"⟩,
       ⟨"2.2.2.2", 80, "/", some "b.com"⟩] :=
  parse_two_entry_example resolveDemo "1.1.1.1" "2.2.2.2" rfl rfl

/-- C3: select_target returns None iff the group's get_targets() list is
empty, and for a non-empty list every selection is a member of the list,
whatever the configured algorithm name. -/
theorem select_target_none_iff_empty (alg : String) (g : TargetGroup)
    (st : LBState) :
    ((selectTarget alg g st).1 = none ↔ g.get_targets = []) ∧
    ∀ t, (selectTarget alg g st).1 = some t → t ∈ g.get_targets := by
  rcases hl : g.get_targets with _ | ⟨a, as⟩
  · constructor
    · simp [selectTarget, hl]
    · intro t ht
      simp [selectTarget, hl] at ht
  · have hne : (a :: as : List Target) ≠ [] := by simp
    have key : ∃ t ∈ a :: as, (selectTarget alg g st).1 = some t := by
      by_cases h1 : alg = "ROUND_ROBIN"
      · simpa [selectTarget, hl, h1] using roundRobin_mem g (a :: as) st hne
      · by_cases h2 : alg = "WEIGHTED"
        · exact ⟨a, by simp, by simp [selectTarget, hl, h1, h2]⟩
        · by_cases h3 : alg = "STICKY"
          · exact ⟨a, by simp, by simp [selectTarget, hl, h1, h2, h3]⟩
          · by_cases h4 : alg = "LRT"
            · exact ⟨a, by simp, by simp [selectTarget, hl, h1, h2, h3, h4]⟩
            · simpa [selectTarget, hl, h1, h2, h3, h4] using
                roundRobin_mem g (a :: as) st hne
    obtain ⟨t0, ht0mem, ht0⟩ := key
    constructor
    · rw [ht0]
      simp
    · intro t ht
      rw [ht0] at ht
      obtain rfl := Option.some.inj ht
      exact ht0mem

/-- Helper: the comma-split-and-strip bridge between parseTargets and the
per-entry loop, valid for the empty string too. -/
theorem parseTargets_eq_entries (resolve : String → List String) (s : String) :
    parseTargets resolve s =
      parseEntries resolve ((pySplit ',' s.data).map pyStrip) := by
  unfold parseTargets
  split
  · next h => rw [h]; rfl
  · rfl

/-- Helper: a non-empty entry parses according to its port segment, host
and base URI decomposition. -/
theorem parseEntry_eq (resolve : String → List String) (b : List Char)
    (hb : b ≠ []) :
    parseEntry resolve b =
      match entryPortSeg b with
      | some ps =>
        match pyInt ps with
        | none => []
        | some port =>
          (resolve (String.mk (entryHost b))).map
            (fun ip =>
              ⟨ip, port, String.mk (entryBaseUri b),
                some (String.mk (entryHost b))⟩)
      | none =>
        (resolve (String.mk (entryHost b))).map
          (fun ip =>
            ⟨ip, 80, String.mk (entryBaseUri b),
              some (String.mk (entryHost b))⟩) := by
  unfold parseEntry entryPortSeg entryHost entryAddressPart entryBaseUri
  rw [if_neg hb]
  rcases h1 : breakOnFirst '/' b with _ | ⟨a, rest⟩
  · rcases h2 : breakOnLast ':' b with _ | ⟨host, ps⟩
    · simp [h1, h2]
    · cases h3 : pyInt ps <;> simp [h1, h2, h3]
  · rcases h2 : breakOnLast ':' a with _ | ⟨host, ps⟩
    · simp [h1, h2]
    · cases h3 : pyInt ps <;> simp [h1, h2, h3]

/-- Helper: an entry with a non-numeric port segment, or whose host fails
resolution, contributes zero targets. -/
theorem parseEntry_bad (resolve : String → List String) (b : List Char)
    (hbad : (∃ ps, entryPortSeg b = some ps ∧ pyInt ps = none) ∨
      resolve (String.mk (entryHost b)) = []) :
    parseEntry resolve b = [] := by
  by_cases hb : b = []
  · simp [parseEntry, hb]
  · rw [parseEntry_eq resolve b hb]
    rcases hbad with ⟨ps, hps, hint⟩ | hres
    · simp [hps, hint]
    · cases hps : entryPortSeg b with
      | none => simp [hps, hres]
      | some ps => cases h3 : pyInt ps <;> simp [hps, hres, h3]

/-- Helper: under a non-raising resolution, a bad entry is dropped and the
parse result is exactly the parse of the sibling entries. -/
theorem parseTargets_drop_bad_entry (resolve : String → List String)
    (s : String) (pre post : List (List Char)) (b : List Char)
    (hsplit : (pySplit ',' s.data).map pyStrip = pre ++ b :: post)
    (hbad : (∃ ps, entryPortSeg b = some ps ∧ pyInt ps = none) ∨
      resolve (String.mk (entryHost b)) = []) :
    parseTargets resolve s =
      parseEntries resolve pre ++ parseEntries resolve post := by
  rw [parseTargets_eq_entries, hsplit]
  unfold parseEntries
  rw [List.flatMap_append, List.flatMap_cons, parseEntry_bad resolve b hbad]
  simp

/-- Helper: when resolution raises no uncaught exception, the fallible
entry model coincides with the total one. -/
theorem parseEntryE_ok (resolve : String → List String) (e : List Char) :
    parseEntryE (fun h => .ok (resolve h)) e = .ok (parseEntry resolve e) := by
  unfold parseEntryE parseEntry
  by_cases hb : e = []
  · simp [hb]
  · simp only [if_neg hb]
    rcases h1 : breakOnFirst '/' e with _ | ⟨a, rest⟩
    · rcases h2 : breakOnLast ':' e with _ | ⟨host, ps⟩
      · simp [h1, h2, Except.map]
      · rcases h3 : pyInt ps with _ | port <;> simp [h1, h2, h3, Except.map]
    · rcases h2 : breakOnLast ':' a with _ | ⟨host, ps⟩
      · simp [h1, h2, Except.map]
      · rcases h3 : pyInt ps with _ | port <;> simp [h1, h2, h3, Except.map]

/-- Helper: when resolution raises no uncaught exception, the fallible
entry loop returns exactly the total model's concatenation. -/
theorem parseEntriesE_ok (resolve : String → List String)
    (es : List (List Char)) :
    parseEntriesE (fun h => .ok (resolve h)) es =
      .ok (parseEntries resolve es) := by
  induction es with
  | nil => rfl
  | cons e rest ih =>
    unfold parseEntriesE
    rw [parseEntryE_ok, ih]
    rfl

/-- Helper: when resolution raises no uncaught exception, construction
completes and yields the total model's target list. -/
theorem parseTargetsE_ok (resolve : String → List String) (s : String) :
    parseTargetsE (fun h => .ok (resolve h)) s =
      .ok (parseTargets resolve s) := by
  unfold parseTargetsE parseTargets
  by_cases h : s.data = []
  · simp [h]
  · simp only [if_neg h]
    exact parseEntriesE_ok resolve _

/-- C5, at the failing input: contrary to the claim's universal,
construction does not always complete. With a.com resolving normally and
a..com making `socket.getaddrinfo` raise `UnicodeError` (the IDNA codec
rejects its empty label; `_resolve_dns` catches only `socket.error` and
`socket.gaierror`), parsing "a.com:80,a..com" propagates the exception
and the healthy sibling's target is lost with it — while the same
sibling alone parses fine, and a non-numeric port (which skips the entry
before any resolution) stays local exactly as the claim describes. -/
theorem construction_can_raise :
    parseTargetsE dnsUnicodeDemo "a.com:80,a..com" =
      .error "UnicodeError: empty label" ∧
    parseTargetsE dnsUnicodeDemo "a.com:80" =
      .ok [⟨"1.1.1.1", 80, "/", some "a.com"⟩] ∧
    parseTargetsE dnsUnicodeDemo "a.com:80,bad:notaport" =
      .ok [⟨"1.1.1.1", 80, "/", some "a.com"⟩] :=
  ⟨rfl, rfl, rfl⟩

/-- Counterexample for C9: the entry h:99999 (with a resolving host) emits
a Target whose port is outside 1–65535; the parser performs no range
check. -/
theorem port_range_counterexample :
    (⟨"1.2.3.4", 99999, "/", some "h"⟩ : Target) ∈
      parseTargets (fun _ => ["1.2.3.4"]) "h:99999" ∧
    ¬(1 ≤ (⟨"1.2.3.4", 99999, "/", some "h"⟩ : Target).port ∧
      (⟨"1.2.3.4", 99999, "/", some "h"⟩ : Target).port ≤ 65535) := by
  constructor
  · have h : parseTargets (fun _ => ["1.2.3.4"]) "h:99999" =
        [⟨"1.2.3.4", 99999, "/", some "h"⟩] := rfl
    rw [h]
    exact List.mem_singleton.mpr rfl
  · decide

/-- C9 as amended: every Target produced by parsing comes from one entry
of the comma-split, and its port is determined by that entry's own port
segment: the default 80 exactly when the entry's address part has no
colon, and otherwise precisely the value Python int() extracted from that
entry's port segment — with no range restriction on it. -/
theorem port_from_entry_segment (resolve : String → List String) (s : String)
    (t : Target) (ht : t ∈ parseTargets resolve s) :
    ∃ e ∈ (pySplit ',' s.data).map pyStrip,
      t ∈ parseEntry resolve e ∧
      ((entryPortSeg e = none ∧ t.port = 80) ∨
        (∃ ps, entryPortSeg e = some ps ∧ pyInt ps = some t.port)) := by
  rw [parseTargets_eq_entries] at ht
  unfold parseEntries at ht
  rw [List.mem_flatMap] at ht
  obtain ⟨e, he, hte⟩ := ht
  refine ⟨e, he, hte, ?_⟩
  by_cases hb : e = []
  · rw [hb] at hte
    simp [parseEntry] at hte
  · rw [parseEntry_eq resolve e hb] at hte
    cases hps : entryPortSeg e with
    | none =>
      simp only [hps, List.mem_map] at hte
      obtain ⟨ip, -, rfl⟩ := hte
      exact Or.inl ⟨rfl, rfl⟩
    | some ps =>
      cases h3 : pyInt ps with
      | none =>
        simp [hps, h3] at hte
      | some port =>
        simp only [hps, h3, List.mem_map] at hte
        obtain ⟨ip, -, rfl⟩ := hte
        exact Or.inr ⟨ps, rfl, h3⟩

/-- Witness for the amended C9: the target parsed from the single entry
a.com is tied to that entry, whose port segment is absent, forcing
port 80. -/
theorem port_from_entry_segment_witness :
    ∃ e ∈ (pySplit ',' ("a.com" : String).data).map pyStrip,
      (⟨"1.1.1.1", 80, "/", some "a.com"⟩ : Target) ∈
        parseEntry resolveDemo e ∧
      ((entryPortSeg e = none ∧
          (⟨"1.1.1.1", 80, "/", some "a.com"⟩ : Target).port = 80) ∨
        (∃ ps, entryPortSeg e = some ps ∧
          pyInt ps = some (⟨"1.1.1.1", 80, "/", some "a.com"⟩ : Target).port)) :=
  port_from_entry_segment resolveDemo "a.com"
    ⟨"1.1.1.1", 80, "/", some "a.com"⟩ (by decide)

/-- Helper: looking up a key just appended to a dict that lacked it. -/
theorem lookup_append_single {b : Type} (d : List (String × b)) (k : String)
    (v : b) (h : pyLookup k d = none) : pyLookup k (d ++ [(k, v)]) = some v := by
  induction d with
  | nil => simp [pyLookup]
  | cons p rest ih =>
    by_cases hp : p.1 = k
    · simp [pyLookup, hp] at h
    · simp only [pyLookup, List.cons_append, if_neg hp] at h ⊢
      exact ih h

/-- Helper: looking up the key whose entry an in-place dict update just
replaced. -/
theorem lookup_map_set {b : Type} (d : List (String × b)) (k : String) (v : b)
    (h : (pyLookup k d).isSome) :
    pyLookup k (d.map (fun p => if p.1 = k then (p.1, v) else p)) = some v := by
  induction d with
  | nil => simp [pyLookup] at h
  | cons p rest ih =>
    by_cases hp : p.1 = k
    · simp [pyLookup, hp]
    · simp only [pyLookup, List.map_cons, if_neg hp] at h ⊢
      exact ih h

/-- Helper: a dict assignment makes the assigned value visible under its
key, whether the key was present or not. -/
theorem lookup_dictSet (d : List (String × Nat)) (k : String) (v : Nat) :
    pyLookup k (dictSet d k v) = some v := by
  unfold dictSet
  by_cases h : (pyLookup k d).isSome
  · rw [if_pos h]
    exact lookup_map_set d k v h
  · rw [if_neg h]
    exact lookup_append_single d k v (Option.not_isSome_iff_eq_none.mp h)

/-- Helper: one round-robin step from a group whose counter is present. -/
theorem roundRobin_step (g : TargetGroup) (l : List Target) (st : LBState)
    (c : Nat) (h : pyLookup g.name st = some c) :
    roundRobin g l st =
      (l.get? (c % l.length), dictSet st g.name ((c + 1) % l.length)) := by
  unfold roundRobin
  simp [h]

/-- Helper: one round-robin step for a never-seen group initializes the
counter to 0 and selects index 0. -/
theorem roundRobin_fresh (g : TargetGroup) (l : List Target) (st : LBState)
    (h : pyLookup g.name st = none) :
    roundRobin g l st =
      (l.get? 0, dictSet (st ++ [(g.name, 0)]) g.name (1 % l.length)) := by
  unfold roundRobin
  simp [h, lookup_append_single st g.name 0 h]

/-- Helper: unfolding one call of the selection sequence. -/
theorem runSelect_succ (alg : String) (g : TargetGroup) (st : LBState)
    (n : Nat) :
    runSelect alg g st (n + 1) =
      ((selectTarget alg g st).1 ::
          (runSelect alg g (selectTarget alg g st).2 n).1,
        (runSelect alg g (selectTarget alg g st).2 n).2) := by
  rcases h : selectTarget alg g st with ⟨t, st1⟩
  rcases h2 : runSelect alg g st1 n with ⟨ts, st2⟩
  simp [runSelect, h, h2]

/-- Helper: selecting with ROUND_ROBIN from a group with a non-empty
candidate list dispatches to the round-robin state machine. -/
theorem selectTarget_rr (g : TargetGroup) (l : List Target) (st : LBState)
    (hl : g.get_targets = l) (hne : l ≠ []) :
    selectTarget "ROUND_ROBIN" g st = roundRobin g l st := by
  unfold selectTarget
  rw [hl]
  simp [hne]

/-- Helper: from a present counter value c, n ROUND_ROBIN selections
return positions c, c+1, ... taken modulo the candidate count. -/
theorem runSelect_rr (g : TargetGroup) (l : List Target)
    (hl : g.get_targets = l) (hne : l ≠ []) :
    ∀ (n : Nat) (st : LBState) (c : Nat), pyLookup g.name st = some c →
      (runSelect "ROUND_ROBIN" g st n).1 =
        (List.range n).map (fun i => l.get? ((c + i) % l.length)) := by
  intro n
  induction n with
  | zero => intro st c _; rfl
  | succ n ih =>
    intro st c h
    have hsel : selectTarget "ROUND_ROBIN" g st =
        (l.get? (c % l.length), dictSet st g.name ((c + 1) % l.length)) :=
      (selectTarget_rr g l st hl hne).trans (roundRobin_step g l st c h)
    rw [runSelect_succ, hsel]
    simp only []
    rw [ih _ _ (lookup_dictSet st g.name ((c + 1) % l.length))]
    rw [List.range_succ_eq_map]
    simp only [List.map_cons, List.map_map, Nat.add_zero]
    congr 1
    apply List.map_congr_left
    intro i _
    simp only [Function.comp_apply]
    rw [Nat.mod_add_mod]
    have hadd : c + 1 + i = c + Nat.succ i := by omega
    rw [hadd]

/-- Helper: the first length+1 positions taken modulo the length, read off
a non-empty list, are the list followed by its first element. -/
theorem range_mod_take (l : List Target) (hne : l ≠ []) :
    (List.range (l.length + 1)).map (fun i => l.get? (i % l.length)) =
      (l ++ l.take 1).map some := by
  have hlen : 0 < l.length := List.length_pos.mpr hne
  apply List.ext
  intro n
  rw [List.get?_map, List.get?_map]
  by_cases h1 : n < l.length
  · rw [List.get?_range (by omega : n < l.length + 1), List.get?_append h1]
    simp only [Option.map_some']
    rw [Nat.mod_eq_of_lt h1, List.get?_eq_get h1]
    rfl
  · by_cases h2 : n = l.length
    · subst h2
      rw [List.get?_range (by omega),
        List.get?_append_right (le_refl l.length)]
      simp only [Option.map_some', Nat.sub_self, Nat.mod_self]
      rw [List.get?_take (by omega : (0 : Nat) < 1), List.get?_eq_get hlen]
      rfl
    · have h3 : l.length + 1 ≤ n := by omega
      rw [List.get?_eq_none.mpr (by simpa using h3),
        List.get?_eq_none.mpr (by simp [List.length_take]; omega)]
      rfl

/-- C1: for a group with a fixed non-empty list of N targets, algorithm
ROUND_ROBIN and a fresh counter for the group's name, the first N calls to
select_target return each of the N targets exactly once in list order, and
the call N+1 returns the first target again: the N+1 selections are the
target list followed by its first element. -/
theorem round_robin_cycles (g : TargetGroup) (l : List Target) (st : LBState)
    (hfresh : pyLookup g.name st = none) (hl : g.get_targets = l)
    (hne : l ≠ []) :
    (runSelect "ROUND_ROBIN" g st (l.length + 1)).1 =
      (l ++ l.take 1).map some := by
  have hsel : selectTarget "ROUND_ROBIN" g st =
      (l.get? 0, dictSet (st ++ [(g.name, 0)]) g.name (1 % l.length)) :=
    (selectTarget_rr g l st hl hne).trans (roundRobin_fresh g l st hfresh)
  rw [runSelect_succ, hsel]
  simp only []
  rw [runSelect_rr g l hl hne l.length _ _ (lookup_dictSet _ _ _)]
  rw [← range_mod_take l hne, List.range_succ_eq_map]
  simp only [List.map_cons, List.map_map, Nat.zero_mod]
  congr 1
  apply List.map_congr_left
  intro i _
  simp only [Function.comp_apply]
  rw [Nat.mod_add_mod]
  have hadd : 1 + i = Nat.succ i := by omega
  rw [hadd]

/-- Witness for C1 on a three-target group: four calls return the three
targets in order and then the first again. -/
theorem round_robin_cycles_witness :
    (runSelect "ROUND_ROBIN"
        (mkTargetGroup resolveDemo "grp" "a.com,two.com" none) []
        ((parseTargets resolveDemo "a.com,two.com").length + 1)).1 =
      (parseTargets resolveDemo "a.com,two.com" ++
        (parseTargets resolveDemo "a.com,two.com").take 1).map some :=
  round_robin_cycles (mkTargetGroup resolveDemo "grp" "a.com,two.com" none)
    (parseTargets resolveDemo "a.com,two.com") [] rfl rfl (by decide)

/-- Witness for C3 at a concrete group and call. -/
theorem select_target_none_iff_empty_witness :
    (((selectTarget "ROUND_ROBIN" (mkTargetGroup resolveDemo "g" "a.com" none)
        []).1 = none ↔
      (mkTargetGroup resolveDemo "g" "a.com" none).get_targets = []) ∧
    (⟨"1.1.1.1", 80, "/", some "a.com"⟩ : Target) ∈
      (mkTargetGroup resolveDemo "g" "a.com" none).get_targets) :=
  ⟨(select_target_none_iff_empty "ROUND_ROBIN"
      (mkTargetGroup resolveDemo "g" "a.com" none) []).1,
   (select_target_none_iff_empty "ROUND_ROBIN"
      (mkTargetGroup resolveDemo "g" "a.com" none) []).2 _ rfl⟩

/-- Helper: a lookup skips over a prefix that does not hold the key. -/
theorem lookup_append_none {b : Type} (k : String) (d1 d2 : List (String × b))
    (h : pyLookup k d1 = none) : pyLookup k (d1 ++ d2) = pyLookup k d2 := by
  induction d1 with
  | nil => rfl
  | cons p rest ih =>
    by_cases hp : p.1 = k
    · simp [pyLookup, hp] at h
    · simp only [pyLookup, List.cons_append, if_neg hp] at h ⊢
      exact ih h

/-- Helper: every header surviving the outbound-header fold has a
non-hop-by-hop name, whatever accumulator the fold starts from. -/
theorem outbound_fold_not_hop (hs : List (String × String)) :
    ∀ d : List (String × String),
      (∀ kv ∈ d, pyLower kv.1 ∉ HOP_BY_HOP_HEADERS) →
      ∀ kv ∈ hs.foldl
        (fun d kv =>
          if pyLower kv.1 ∈ HOP_BY_HOP_HEADERS then d
          else dictSetStr d kv.1 kv.2) d,
        pyLower kv.1 ∉ HOP_BY_HOP_HEADERS := by
  induction hs with
  | nil => exact fun d hd kv hkv => hd kv hkv
  | cons p rest ih =>
    intro d hd kv hkv
    rw [List.foldl_cons] at hkv
    by_cases hp : pyLower p.1 ∈ HOP_BY_HOP_HEADERS
    · rw [if_pos hp] at hkv
      exact ih d hd kv hkv
    · rw [if_neg hp] at hkv
      refine ih _ ?_ kv hkv
      intro kv2 hkv2
      unfold dictSetStr at hkv2
      by_cases hks : (pyLookup p.1 d).isSome
      · rw [if_pos hks] at hkv2
        obtain ⟨q, hq, hqe⟩ := List.mem_map.mp hkv2
        by_cases hq1 : q.1 = p.1
        · rw [if_pos hq1] at hqe
          subst hqe
          simpa [hq1] using hp
        · rw [if_neg hq1] at hqe
          subst hqe
          exact hd q hq
      · rw [if_neg hks] at hkv2
        rcases List.mem_append.mp hkv2 with h | h
        · exact hd kv2 h
        · simp only [List.mem_singleton] at h
          subst h
          exact hp

/-- Helper: when the incoming header names are pairwise distinct and none
of them is already keyed in the accumulator, the fold appends exactly the
non-hop-by-hop headers, in order and unmodified. -/
theorem outbound_fold_nodup (hs : List (String × String)) :
    ∀ d : List (String × String),
      (∀ k ∈ hs.map Prod.fst, pyLookup k d = none) →
      (hs.map Prod.fst).Nodup →
      hs.foldl
        (fun d kv =>
          if pyLower kv.1 ∈ HOP_BY_HOP_HEADERS then d
          else dictSetStr d kv.1 kv.2) d =
        d ++ hs.filter (fun kv => pyLower kv.1 ∉ HOP_BY_HOP_HEADERS) := by
  induction hs with
  | nil => intro d _ _; simp
  | cons p rest ih =>
    intro d hnotin hnodup
    have hnodup2 : (rest.map Prod.fst).Nodup :=
      (List.nodup_cons.mp (by simpa using hnodup)).2
    have hheadout : p.1 ∉ rest.map Prod.fst :=
      (List.nodup_cons.mp (by simpa using hnodup)).1
    rw [List.foldl_cons]
    by_cases hp : pyLower p.1 ∈ HOP_BY_HOP_HEADERS
    · rw [if_pos hp, ih d (fun k hk => hnotin k (by simp [hk])) hnodup2]
      congr 1
      rw [List.filter_cons]
      simp [hp]
    · rw [if_neg hp]
      have hdp : pyLookup p.1 d = none := hnotin p.1 (by simp)
      have hset : dictSetStr d p.1 p.2 = d ++ [(p.1, p.2)] := by
        unfold dictSetStr
        rw [if_neg (by simp [hdp])]
      rw [hset, ih (d ++ [(p.1, p.2)]) ?_ hnodup2]
      · rw [List.append_assoc]
        congr 1
        rw [List.filter_cons]
        simp [hp]
      · intro k hk
        have hkd : pyLookup k d = none := hnotin k (by simp [hk])
        have hkp : ¬(p.1 = k) := fun he => hheadout (he ▸ hk)
        rw [lookup_append_none k d [(p.1, p.2)] hkd]
        simp [pyLookup, hkp]

/-- Counterexample for C4: a header name repeated in the inbound request is
collapsed by the dict comprehension, so its first occurrence is not passed
through to the outbound request. -/
theorem outbound_headers_counterexample :
    ("X-A", "1") ∈ ([("X-A", "1"), ("X-A", "2")] : List (String × String)) ∧
    pyLower "X-A" ∉ HOP_BY_HOP_HEADERS ∧
    ("X-A", "1") ∉ outboundHeaders [("X-A", "1"), ("X-A", "2")] := by
  decide

/-- C4 as amended: the outbound request never contains a header whose
lowercased name is connection, keep-alive or transfer-encoding, whatever
the inbound casing; and whenever the inbound header names are pairwise
distinct (the usual shape of a WSGI request), every other inbound header is
passed through unmodified — a repeated inbound name is collapsed to one
outbound header with the last value. -/
theorem outbound_headers_filtering (hs : List (String × String)) :
    (∀ kv ∈ outboundHeaders hs, pyLower kv.1 ∉ HOP_BY_HOP_HEADERS) ∧
    ((hs.map Prod.fst).Nodup →
      outboundHeaders hs =
        hs.filter (fun kv => pyLower kv.1 ∉ HOP_BY_HOP_HEADERS)) := by
  constructor
  · exact outbound_fold_not_hop hs [] (by simp)
  · intro hnd
    have h := outbound_fold_nodup hs [] (fun k _ => rfl) hnd
    simpa using h

/-- Witness for the amended C4 on a concrete request with a hop-by-hop
header and a distinct ordinary header. -/
theorem outbound_headers_filtering_witness :
    (∀ kv ∈ outboundHeaders [("Connection", "close"), ("Host", "h")],
      pyLower kv.1 ∉ HOP_BY_HOP_HEADERS) ∧
    outboundHeaders [("Connection", "close"), ("Host", "h")] =
      [("Connection", "close"), ("Host", "h")].filter
        (fun kv => pyLower kv.1 ∉ HOP_BY_HOP_HEADERS) :=
  ⟨(outbound_headers_filtering _).1,
   (outbound_headers_filtering _).2 (by decide)⟩

/-- Helper: the more keys already seen, the same dedup as any other seen
list with the same members. -/
theorem dedupKeys_congr (ks : List String) :
    ∀ s1 s2 : List String, (∀ x, x ∈ s1 ↔ x ∈ s2) →
      dedupKeys s1 ks = dedupKeys s2 ks := by
  induction ks with
  | nil => intro s1 s2 _; rfl
  | cons k rest ih =>
    intro s1 s2 hiff
    by_cases hk : k ∈ s1
    · rw [dedupKeys, dedupKeys, if_pos hk, if_pos ((hiff k).mp hk)]
      exact ih s1 s2 hiff
    · rw [dedupKeys, dedupKeys, if_neg hk,
        if_neg (fun h => hk ((hiff k).mpr h))]
      rw [ih (k :: s1) (k :: s2) (by intro x; simp [hiff x])]

/-- Helper: deduplicated keys are never among the already-seen ones. -/
theorem dedupKeys_not_seen (ks : List String) :
    ∀ (seen : List String) (k : String), k ∈ dedupKeys seen ks → k ∉ seen := by
  induction ks with
  | nil => intro seen k hk; simp [dedupKeys] at hk
  | cons k0 rest ih =>
    intro seen k hk
    by_cases h0 : k0 ∈ seen
    · rw [dedupKeys, if_pos h0] at hk
      exact ih seen k hk
    · rw [dedupKeys, if_neg h0] at hk
      rcases List.mem_cons.mp hk with rfl | hk2
      · exact h0
      · intro hs
        exact ih (k0 :: seen) k hk2 (List.mem_cons_of_mem k0 hs)

/-- Helper: membership in the deduplicated keys is membership in the
sequence minus the seen set. -/
theorem dedupKeys_mem_iff (ks : List String) :
    ∀ (seen : List String) (k : String),
      k ∈ dedupKeys seen ks ↔ k ∈ ks ∧ k ∉ seen := by
  induction ks with
  | nil => intro seen k; simp [dedupKeys]
  | cons k0 rest ih =>
    intro seen k
    by_cases h0 : k0 ∈ seen
    · rw [dedupKeys, if_pos h0, ih]
      constructor
      · exact fun ⟨h1, h2⟩ => ⟨List.mem_cons_of_mem k0 h1, h2⟩
      · rintro ⟨h1, h2⟩
        rcases List.mem_cons.mp h1 with rfl | h1
        · exact absurd h0 h2
        · exact ⟨h1, h2⟩
    · rw [dedupKeys, if_neg h0]
      constructor
      · intro hk
        rcases List.mem_cons.mp hk with rfl | hk2
        · exact ⟨List.mem_cons_self _ _, h0⟩
        · obtain ⟨h1, h2⟩ := (ih (k0 :: seen) k).mp hk2
          exact ⟨List.mem_cons_of_mem k0 h1,
            fun hs => h2 (List.mem_cons_of_mem k0 hs)⟩
      · rintro ⟨h1, h2⟩
        by_cases hek : k = k0
        · subst hek
          exact List.mem_cons_self _ _
        · rcases List.mem_cons.mp h1 with rfl | h1
          · exact absurd rfl hek
          · exact List.mem_cons_of_mem k0 ((ih (k0 :: seen) k).mpr
              ⟨h1, by simp [hek, h2]⟩)

/-- Helper: a lookup misses exactly when the key is not among the dict's
keys. -/
theorem pyLookup_none_iff {b : Type} (k : String) (d : List (String × b)) :
    pyLookup k d = none ↔ k ∉ d.map Prod.fst := by
  induction d with
  | nil => simp [pyLookup]
  | cons p rest ih =>
    by_cases hp : p.1 = k
    · simp [pyLookup, hp]
    · simp only [pyLookup, if_neg hp, ih, List.map_cons, List.mem_cons]
      constructor
      · intro h1 h2
        rcases h2 with h2 | h2
        · exact hp h2.symm
        · exact h1 h2
      · exact fun h1 h2 => h1 (Or.inr h2)

/-- Helper: congruence for flat maps over a common index list. -/
theorem flatMap_congr {a b : Type} (l : List a) (f g : a → List b)
    (h : ∀ x ∈ l, f x = g x) : l.flatMap f = l.flatMap g := by
  induction l with
  | nil => rfl
  | cons x rest ih =>
    rw [List.flatMap_cons, List.flatMap_cons, h x (List.mem_cons_self x rest),
      ih (fun y hy => h y (List.mem_cons_of_mem x hy))]

/-- Helper: the grouping loop of get_weighted_target_list builds, on top of
any accumulator, one entry per first-encountered key holding the filter of
the traversed list by that key. -/
theorem foldl_groupStep (l : List Target) :
    ∀ d : List (String × List Target),
      l.foldl groupStep d =
        d.map (fun p => (p.1, p.2 ++ l.filter (fun t => targetKey t = p.1))) ++
          (dedupKeys (d.map Prod.fst) (l.map targetKey)).map
            (fun k => (k, l.filter (fun t => targetKey t = k))) := by
  induction l with
  | nil =>
    intro d
    simp [dedupKeys]
  | cons t rest ih =>
    intro d
    rw [List.foldl_cons]
    by_cases hk : (pyLookup (targetKey t) d).isSome
    · have hstep : groupStep d t = appendAt d (targetKey t) t := by
        unfold groupStep
        rw [if_pos hk]
      have hmem : targetKey t ∈ d.map Prod.fst := by
        by_contra hno
        rw [← pyLookup_none_iff] at hno
        rw [hno] at hk
        simp at hk
      have hkeys : (appendAt d (targetKey t) t).map Prod.fst =
          d.map Prod.fst := by
        unfold appendAt
        rw [List.map_map]
        apply List.map_congr_left
        intro p _
        by_cases hp : p.1 = targetKey t <;> simp [hp]
      rw [hstep, ih (appendAt d (targetKey t) t), hkeys, List.map_cons]
      rw [show dedupKeys (d.map Prod.fst)
            (targetKey t :: rest.map targetKey) =
          dedupKeys (d.map Prod.fst) (rest.map targetKey) from by
        rw [dedupKeys, if_pos hmem]]
      congr 1
      · unfold appendAt
        rw [List.map_map]
        apply List.map_congr_left
        intro p _
        by_cases hp : p.1 = targetKey t
        · simp only [Function.comp_apply, if_pos hp, List.filter_cons]
          rw [hp]
          simp
        · simp only [Function.comp_apply, if_neg hp, List.filter_cons]
          have : ¬(targetKey t = p.1) := fun he => hp he.symm
          simp [this]
      · apply List.map_congr_left
        intro k hkmem
        have hkn : k ∉ d.map Prod.fst := dedupKeys_not_seen _ _ _ hkmem
        have hne : ¬(targetKey t = k) := fun he => hkn (he ▸ hmem)
        rw [List.filter_cons]
        simp [hne]
    · have hno : pyLookup (targetKey t) d = none :=
        Option.not_isSome_iff_eq_none.mp hk
      have hnmem : targetKey t ∉ d.map Prod.fst :=
        (pyLookup_none_iff _ _).mp hno
      have hstep : groupStep d t = d ++ [(targetKey t, [t])] := by
        unfold groupStep
        rw [if_neg hk]
        unfold appendAt
        rw [List.map_append]
        have h1 : d.map
            (fun p => if p.1 = targetKey t then (p.1, p.2 ++ [t]) else p) =
            d := by
          have : ∀ p ∈ d,
              (if p.1 = targetKey t then (p.1, p.2 ++ [t]) else p) = p := by
            intro p hp
            have : ¬(p.1 = targetKey t) := by
              intro he
              exact hnmem (he ▸ List.mem_map.mpr ⟨p, hp, rfl⟩)
            rw [if_neg this]
          rw [List.map_congr_left this, List.map_id']
        rw [h1]
        simp
      rw [hstep, ih (d ++ [(targetKey t, [t])]), List.map_cons]
      rw [show dedupKeys (d.map Prod.fst)
            (targetKey t :: rest.map targetKey) =
          targetKey t ::
            dedupKeys (targetKey t :: d.map Prod.fst) (rest.map targetKey)
          from by rw [dedupKeys, if_neg hnmem]]
      have hkeys2 : (d ++ [(targetKey t, [t])]).map Prod.fst =
          d.map Prod.fst ++ [targetKey t] := by simp
      rw [hkeys2, List.map_append, List.append_assoc]
      congr 1
      · apply List.map_congr_left
        intro p hp
        have hpk : ¬(targetKey t = p.1) := by
          intro he
          exact hnmem (he ▸ List.mem_map.mpr ⟨p, hp, rfl⟩)
        rw [List.filter_cons]
        simp [hpk]
      · rw [List.map_singleton, List.singleton_append, List.map_cons]
        congr 1
        · rw [List.filter_cons]
          simp
        · rw [dedupKeys_congr (rest.map targetKey)
            (d.map Prod.fst ++ [targetKey t])
            (targetKey t :: d.map Prod.fst) (by intro x; simp [or_comm])]
          apply List.map_congr_left
          intro k hkmem
          have hkn : k ∉ targetKey t :: d.map Prod.fst :=
            dedupKeys_not_seen _ _ _ hkmem
          have hne : ¬(targetKey t = k) :=
            fun he => hkn (he ▸ List.mem_cons_self _ _)
          rw [List.filter_cons]
          simp [hne]

/-- Helper: the grouping dict is the first-encounter-ordered list of keys,
each holding the targets with that key, in traversal order. -/
theorem pyGroupBy_eq (l : List Target) :
    pyGroupBy l =
      (dedupKeys [] (l.map targetKey)).map
        (fun k => (k, l.filter (fun t => targetKey t = k))) := by
  have h := foldl_groupStep l []
  simpa [pyGroupBy] using h

/-- Helper: with weights provided, the weighted target list is the ordered
weighted expansion of the per-key filters. -/
theorem weighted_list_formula (g : TargetGroup)
    (hw : g.weightsProvided = true) :
    g.get_weighted_target_list =
      (dedupKeys [] (g.targets.map targetKey)).flatMap
        (fun k => (List.replicate (g.get_weight k).toNat
          (g.targets.filter (fun t => targetKey t = k))).flatten) := by
  unfold TargetGroup.get_weighted_target_list
  rw [hw]
  simp only [Bool.not_true, Bool.false_eq_true, if_false]
  rw [pyGroupBy_eq]
  induction dedupKeys [] (g.targets.map targetKey) with
  | nil => rfl
  | cons k ks ih =>
    rw [List.map_cons, List.flatMap_cons, List.flatMap_cons, ih]

/-- C8: in a group constructed with weights, a hostname of weight 3 whose
filter yields exactly two Targets contributes the contiguous block of 6
entries t1, t2, t1, t2, t1, t2 to get_weighted_target_list, whose overall
shape is one block per hostname key in first-encounter order. -/
theorem weighted_expansion_grouping (g : TargetGroup) (h : String)
    (t1 t2 : Target) (hw : g.weightsProvided = true)
    (hwt : g.get_weight h = 3)
    (hf : g.targets.filter (fun t => targetKey t = h) = [t1, t2]) :
    g.get_weighted_target_list =
      (dedupKeys [] (g.targets.map targetKey)).flatMap
        (fun k => (List.replicate (g.get_weight k).toNat
          (g.targets.filter (fun t => targetKey t = k))).flatten) ∧
    h ∈ dedupKeys [] (g.targets.map targetKey) ∧
    (List.replicate (g.get_weight h).toNat
        (g.targets.filter (fun t => targetKey t = h))).flatten =
      [t1, t2, t1, t2, t1, t2] := by
  refine ⟨weighted_list_formula g hw, ?_, ?_⟩
  · have ht1 : t1 ∈ g.targets.filter (fun t => targetKey t = h) := by
      rw [hf]
      simp
    have hsplit := List.mem_filter.mp ht1
    have hkey : targetKey t1 = h := by simpa using hsplit.2
    have hmem : h ∈ g.targets.map targetKey :=
      List.mem_map.mpr ⟨t1, hsplit.1, hkey⟩
    rw [dedupKeys_mem_iff]
    exact ⟨hmem, by simp⟩
  · rw [hwt, hf]
    rfl

/-- Witness for C8 on a group whose single hostname resolves to two
addresses and carries weight 3. -/
theorem weighted_expansion_grouping_witness :
    "two.com" ∈ dedupKeys []
      ((mkTargetGroup resolveDemo "g" "two.com:80"
        (some [("two.com", 3)])).targets.map targetKey) ∧
    (List.replicate ((mkTargetGroup resolveDemo "g" "two.com:80"
          (some [("two.com", 3)])).get_weight "two.com").toNat
        ((mkTargetGroup resolveDemo "g" "two.com:80"
          (some [("two.com", 3)])).targets.filter
          (fun t => targetKey t = "two.com"))).flatten =
      [⟨"3.3.3.3", 80, "/", some "two.com"⟩,
       ⟨"4.4.4.4", 80, "/", some "two.com"⟩,
       ⟨"3.3.3.3", 80, "/", some "two.com"⟩,
       ⟨"4.4.4.4", 80, "/", some "two.com"⟩,
       ⟨"3.3.3.3", 80, "/", some "two.com"⟩,
       ⟨"4.4.4.4", 80, "/", some "two.com"⟩] :=
  ⟨(weighted_expansion_grouping
      (mkTargetGroup resolveDemo "g" "two.com:80" (some [("two.com", 3)]))
      "two.com" ⟨"3.3.3.3", 80, "/", some "two.com"⟩
      ⟨"4.4.4.4", 80, "/", some "two.com"⟩ rfl rfl (by decide)).2.1,
   (weighted_expansion_grouping
      (mkTargetGroup resolveDemo "g" "two.com:80" (some [("two.com", 3)]))
      "two.com" ⟨"3.3.3.3", 80, "/", some "two.com"⟩
      ⟨"4.4.4.4", 80, "/", some "two.com"⟩ rfl rfl (by decide)).2.2⟩

/-- Helper: filtering a traversal by one new key and by the remaining keys
partitions, up to permutation, the filter by the old seen set. -/
theorem filter_split_perm (l : List Target) (k0 : String)
    (seen : List String) (hk0 : k0 ∉ seen) :
    List.Perm
      (l.filter (fun t => targetKey t = k0) ++
        l.filter (fun t => targetKey t ∉ (k0 :: seen)))
      (l.filter (fun t => targetKey t ∉ seen)) := by
  induction l with
  | nil => simp
  | cons t rest ih =>
    rw [List.filter_cons, List.filter_cons, List.filter_cons]
    by_cases h1 : targetKey t = k0
    · rw [if_pos (by simp [h1]), if_neg (by simp [h1]),
        if_pos (by simp [h1, hk0])]
      rw [List.cons_append]
      exact ih.cons t
    · by_cases h2 : targetKey t ∈ seen
      · rw [if_neg (by simp [h1]), if_neg (by simp [h2]),
          if_neg (by simp [h2])]
        exact ih
      · rw [if_neg (by simp [h1]), if_pos (by simp [h1, h2]),
          if_pos (by simp [h2])]
        exact List.perm_middle.trans (ih.cons t)

/-- Helper: concatenating the per-key filters over the deduplicated keys
permutes the part of the traversal whose keys were not yet seen. -/
theorem dedup_filter_perm (l : List Target) :
    ∀ seen : List String,
      List.Perm
        ((dedupKeys seen (l.map targetKey)).flatMap
          (fun k => l.filter (fun t => targetKey t = k)))
        (l.filter (fun t => targetKey t ∉ seen)) := by
  induction l with
  | nil => intro seen; simp [dedupKeys]
  | cons t rest ih =>
    intro seen
    rw [List.map_cons]
    by_cases hmem : targetKey t ∈ seen
    · rw [show dedupKeys seen (targetKey t :: rest.map targetKey) =
          dedupKeys seen (rest.map targetKey) from by
        rw [dedupKeys, if_pos hmem]]
      rw [flatMap_congr _ _ (fun k => rest.filter (fun x => targetKey x = k))
        (by
          intro k hk
          have hne : ¬(targetKey t = k) :=
            fun he => (dedupKeys_not_seen _ _ _ hk) (he ▸ hmem)
          rw [List.filter_cons]
          simp [hne])]
      rw [List.filter_cons, if_neg (by simpa using hmem)]
      exact ih seen
    · rw [show dedupKeys seen (targetKey t :: rest.map targetKey) =
          targetKey t ::
            dedupKeys (targetKey t :: seen) (rest.map targetKey) from by
        rw [dedupKeys, if_neg hmem]]
      rw [List.flatMap_cons]
      rw [show (t :: rest).filter (fun x => targetKey x = targetKey t) =
          t :: rest.filter (fun x => targetKey x = targetKey t) from by
        rw [List.filter_cons, if_pos (by simp)]]
      rw [flatMap_congr _ _ (fun k => rest.filter (fun x => targetKey x = k))
        (by
          intro k hk
          have hne : ¬(targetKey t = k) := fun he =>
            (dedupKeys_not_seen _ _ _ hk) (he ▸ List.mem_cons_self _ _)
          rw [List.filter_cons]
          simp [hne])]
      rw [List.filter_cons, if_pos (by simpa using hmem)]
      rw [List.cons_append]
      refine List.Perm.cons t ?_
      exact ((ih (targetKey t :: seen)).append_left
          (rest.filter (fun x => targetKey x = targetKey t))).trans
        (filter_split_perm rest (targetKey t) seen hmem)

/-- C10: a TargetGroup constructed with an explicitly empty weights dict
has a weighted target list equal to the concatenation of its hostname
groups (weight 1 everywhere), which is a permutation of its target list —
hence non-empty whenever the group has targets, each parsed Target
occurring exactly once — in contrast with the empty list obtained when no
weights argument is given. -/
theorem weighted_list_with_empty_weights (resolve : String → List String)
    (name s : String) :
    (mkTargetGroup resolve name s (some [])).get_weighted_target_list =
      (pyGroupBy (parseTargets resolve s)).flatMap (fun p => p.2) ∧
    List.Perm
      ((mkTargetGroup resolve name s (some [])).get_weighted_target_list)
      (parseTargets resolve s) ∧
    (parseTargets resolve s ≠ [] →
      (mkTargetGroup resolve name s (some [])).get_weighted_target_list ≠ []) ∧
    (mkTargetGroup resolve name s none).get_weighted_target_list = [] := by
  have hform := weighted_list_formula
    (mkTargetGroup resolve name s (some [])) rfl
  have htg : (mkTargetGroup resolve name s (some [])).targets =
      parseTargets resolve s := rfl
  have hw1 : ∀ k, ((mkTargetGroup resolve name s (some [])).get_weight k) =
      1 := fun k => rfl
  have heq : (mkTargetGroup resolve name s (some [])).get_weighted_target_list
      = (dedupKeys [] ((parseTargets resolve s).map targetKey)).flatMap
        (fun k => (parseTargets resolve s).filter
          (fun t => targetKey t = k)) := by
    rw [hform, htg]
    apply flatMap_congr
    intro k _
    rw [hw1 k]
    simp
  have hgroup : (pyGroupBy (parseTargets resolve s)).flatMap
      (fun p => p.2) =
      (dedupKeys [] ((parseTargets resolve s).map targetKey)).flatMap
        (fun k => (parseTargets resolve s).filter
          (fun t => targetKey t = k)) := by
    rw [pyGroupBy_eq]
    induction dedupKeys [] ((parseTargets resolve s).map targetKey) with
    | nil => rfl
    | cons k ks ih => rw [List.map_cons, List.flatMap_cons,
        List.flatMap_cons, ih]
  have hperm : List.Perm
      ((mkTargetGroup resolve name s (some [])).get_weighted_target_list)
      (parseTargets resolve s) := by
    rw [heq]
    have h := dedup_filter_perm (parseTargets resolve s) []
    simpa using h
  refine ⟨heq.trans hgroup.symm, hperm, ?_, rfl⟩
  intro hne hempty
  rw [hempty] at hperm
  exact hne hperm.symm.eq_nil

/-- Witness for C10: with an empty weights dict and two resolvable
hostnames the weighted list is non-empty. -/
theorem weighted_list_with_empty_weights_witness :
    (mkTargetGroup resolveDemo "gw" "a.com,b.com"
      (some [])).get_weighted_target_list ≠ [] :=
  (weighted_list_with_empty_weights resolveDemo "gw" "a.com,b.com").2.2.1
    (by decide)

end LB504
